import Mathlib

set_option maxRecDepth 20000

/-!
Shallow embedding of the deterministic document-analysis-and-composition
pipeline of the PDF Tarot Reader repository.  Text is modelled at the
character level as `List Char` (JS strings restricted to the ASCII ranges
the pipeline manipulates); machine integers are modelled as `Int` with
explicit wrapping to 32-bit signed semantics; fallible operations return
`Option`/`Except`.
-/

/-- JS `text.split(sep)` generalised to a character predicate: cut the list
at every character satisfying `p`, keeping empty pieces (as JS does). -/
def splitOnPred (p : Char → Bool) : List Char → List (List Char)
  | [] => [[]]
  | c :: rest =>
    if p c then [] :: splitOnPred p rest
    else (splitOnPred p rest).modifyHead (fun w => c :: w)

/-- JS `text.split(' ')` (split on every single space character). -/
def splitSpace (text : List Char) : List (List Char) :=
  splitOnPred (fun c => c = ' ') text

/-- `wrapText`, src/api/render.js lines 35-51: greedy word wrap.  State is
(remaining words, emitted lines, current line); JS `if (currentLine)`
truthiness is emptiness of the current line. -/
def wrapGo (maxChars : Nat) : List (List Char) → List (List Char) → List Char → List (List Char)
  | [], lines, currentLine =>
      lines ++ (if currentLine.isEmpty then [] else [currentLine])
  | word :: words, lines, currentLine =>
      if currentLine.length + word.length + 1 ≤ maxChars then
        wrapGo maxChars words lines
          (currentLine ++ (if currentLine.isEmpty then [] else [' ']) ++ word)
      else
        wrapGo maxChars words
          (lines ++ (if currentLine.isEmpty then [] else [currentLine])) word

/-- `wrapText(text, maxChars)` from src/api/render.js. -/
def wrapText (text : List Char) (maxChars : Nat) : List (List Char) :=
  wrapGo maxChars (splitSpace text) [] []

/-- `truncateText(text, maxLength)` from src/api/render.js lines 30-33
(call sites use maxLength = 50 and 18, so `maxLength - 3` never underflows). -/
def truncateChars (text : List Char) (maxLength : Nat) : List Char :=
  if text.length ≤ maxLength then text
  else text.take (maxLength - 3) ++ ('.' :: '.' :: '.' :: [])

/-- The ASCII fragment of the JS regex class `\s`. -/
def isJsWhitespace (c : Char) : Bool :=
  decide (c = ' ') || decide (c = '\t') || decide (c = '\n') || decide (c = '\r') ||
    decide (c.toNat = 11) || decide (c.toNat = 12)

/-- Characters kept by the replacement regex `[^a-z0-9\s]` (after
lowercasing); every other character is replaced by a space. -/
def keptChar (c : Char) : Bool :=
  (decide ('a' ≤ c) && decide (c ≤ 'z')) || (decide ('0' ≤ c) && decide (c ≤ '9')) ||
    isJsWhitespace c

/-- `STOP_WORDS` from the keyword-extraction service (src/unnamed/part_006). -/
def STOP_WORDS : List (List Char) :=
  (["the", "a", "an", "and", "or", "but", "in", "on", "at", "to", "for", "of",
    "with", "by", "from", "as", "is", "was", "are", "were", "been", "be", "have",
    "has", "had", "do", "does", "did", "will", "would", "could", "should", "may",
    "might", "must", "shall", "can", "need", "dare", "ought", "used", "this",
    "that", "these", "those", "it", "its", "they", "them", "their", "we", "us",
    "our", "you", "your", "i", "me", "my", "he", "him", "his", "she", "her",
    "which", "who", "whom", "what", "where", "when", "why", "how", "all", "each",
    "every", "both", "few", "more", "most", "other", "some", "such", "no", "not",
    "only", "same", "so", "than", "too", "very", "just", "also", "now", "here",
    "there", "then", "once", "page", "document", "file", "version", "date", "new",
    "one", "two", "three", "first", "last", "next", "any", "many", "much", "own"]
   : List String).map String.data

/-- Tokenisation step of `extractKeywords`: lowercase, replace characters
outside `[a-z0-9\s]` by spaces, split on whitespace (splitting at each
whitespace character; the empty pieces a `\s+` split would merge away are
removed by the length filter), drop tokens of length ≤ 3 or stop words. -/
def tokenize (text : List Char) : List (List Char) :=
  (splitOnPred isJsWhitespace
      ((text.map Char.toLower).map (fun c => if keptChar c then c else ' '))).filter
    (fun word => decide (3 < word.length) && !(STOP_WORDS.contains word))

/-- One update of the `frequency` object of `extractKeywords`
(`frequency[word] = (frequency[word] || 0) + 1`), on the object's
key-insertion record: a JS object remembers the creation order of its keys,
so a new key is appended at the end of the record.  Enumeration order is a
separate matter, modelled by `objectEntries` below. -/
def bumpWord (acc : List (List Char × Nat)) (word : List Char) : List (List Char × Nat) :=
  if acc.any (fun e => decide (e.1 = word)) then
    acc.map (fun e => if e.1 = word then (e.1, e.2 + 1) else e)
  else
    acc ++ [(word, 1)]

/-- The key-insertion record of the `frequency` object after counting a
token list: keys in first-seen order, each with its count. -/
def countTokens (words : List (List Char)) : List (List Char × Nat) :=
  words.foldl bumpWord []

/-- An ASCII decimal digit. -/
def isDigitChar (c : Char) : Bool :=
  decide ('0' ≤ c) && decide (c ≤ '9')

/-- Numeric value of a digit string. -/
def digitsToNat (w : List Char) : Nat :=
  w.foldl (fun n c => n * 10 + (c.toNat - 48)) 0

/-- ECMAScript array-index keys: the canonical decimal representation (no
leading zero except "0" itself) of an integer i with 0 ≤ i < 2^32 - 1.
Object property enumeration lists these before all other string keys. -/
def isArrayIndexKey (w : List Char) : Bool :=
  w.all isDigitChar && decide (w ≠ []) &&
    (decide (w = ['0']) || decide (w.head? ≠ some '0')) &&
    decide (digitsToNat w < 4294967295)

/-- Insert an entry into a list sorted by ascending numeric key value. -/
def insertByIndexVal (x : List Char × Nat) : List (List Char × Nat) → List (List Char × Nat)
  | [] => [x]
  | y :: ys =>
    if digitsToNat x.1 ≤ digitsToNat y.1 then x :: y :: ys else y :: insertByIndexVal x ys

/-- Sort array-index entries by ascending numeric key value. -/
def sortByIndexVal : List (List Char × Nat) → List (List Char × Nat)
  | [] => []
  | x :: xs => insertByIndexVal x (sortByIndexVal xs)

/-- `Object.entries` of a JS object given its key-insertion record:
ECMAScript enumerates array-index keys first, in ascending numeric order,
then the remaining string keys in key-insertion order. -/
def objectEntries (assoc : List (List Char × Nat)) : List (List Char × Nat) :=
  sortByIndexVal (assoc.filter (fun e => isArrayIndexKey e.1)) ++
    assoc.filter (fun e => !(isArrayIndexKey e.1))

/-- Insert an entry into a list sorted by descending count, before the first
entry of smaller-or-equal count (the unique stable descending order produced
by JS `sort((a, b) => b[1] - a[1])`). -/
def insertByCount (x : List Char × Nat) : List (List Char × Nat) → List (List Char × Nat)
  | [] => [x]
  | y :: ys => if y.2 ≤ x.2 then x :: y :: ys else y :: insertByCount x ys

/-- Stable sort by descending count. -/
def sortByCountDesc : List (List Char × Nat) → List (List Char × Nat)
  | [] => []
  | x :: xs => insertByCount x (sortByCountDesc xs)

/-- `Object.entries(frequency)` for a text's tokens: array-index-like
tokens first in ascending numeric order, then the remaining tokens in
first-seen order. -/
def keywordEntries (text : List Char) : List (List Char × Nat) :=
  objectEntries (countTokens (tokenize text))

/-- `extractKeywords(text, maxKeywords = 10)` from src/unnamed/part_006. -/
def extractKeywords (text : List Char) (maxKeywords : Nat := 10) : List (List Char) :=
  ((sortByCountDesc (keywordEntries text)).take maxKeywords).map Prod.fst

/-- Number of a category's words present among the (lowercased) keywords:
`category.words.filter(w => keywordSet.has(w)).length`. -/
def categoryScore (keywordSet : List (List Char)) (words : List (List Char)) : Nat :=
  (words.filter (fun w => keywordSet.contains w)).length

/-- The fixed category table of `categorizeDocument` (src/unnamed/part_006). -/
def CATEGORY_TABLE : List (String × List (List Char)) :=
  [("technical",
      (["code", "software", "system", "data", "api", "function", "error", "debug"]
        : List String).map String.data),
   ("business",
      (["revenue", "sales", "market", "customer", "strategy", "growth", "budget"]
        : List String).map String.data),
   ("legal",
      (["agreement", "contract", "terms", "party", "clause", "liability", "law"]
        : List String).map String.data),
   ("academic",
      (["research", "study", "analysis", "hypothesis", "methodology", "results"]
        : List String).map String.data),
   ("creative",
      (["design", "concept", "creative", "brand", "visual", "story", "content"]
        : List String).map String.data),
   ("administrative",
      (["meeting", "agenda", "minutes", "action", "review", "report", "status"]
        : List String).map String.data)]

/-- `categorizeDocument(keywords)` from src/unnamed/part_006: fold over the
category table keeping the best strictly-improving score, starting from
`{name: 'general', score: 0}`. -/
def categorizeDocument (keywords : List (List Char)) : String :=
  let keywordSet := keywords.map (List.map Char.toLower)
  (CATEGORY_TABLE.foldl
      (fun best cat =>
        if best.2 < categoryScore keywordSet cat.2 then (cat.1, categoryScore keywordSet cat.2)
        else best)
      ("general", 0)).1

/-- Wrap an integer to JS 32-bit signed semantics (`ToInt32`). -/
def toInt32 (x : Int) : Int :=
  let r := x % 4294967296
  if r < 2147483648 then r else r - 4294967296

/-- One step of `hashCode` (src/server/src/services/readingGenerator.js
lines 145-153): `hash = ((hash << 5) - hash) + char; hash = hash & hash`.
In JS, `<<` wraps its result to a signed 32-bit integer and `hash & hash`
wraps the (exact) intermediate sum back to a signed 32-bit integer. -/
def hashStep (hash : Int) (code : Nat) : Int :=
  toInt32 (toInt32 (hash * 32) - hash + code)

/-- `hashCode(str)`: fold `hashStep` over the character codes, then
`Math.abs`. -/
def hashCode (s : List Char) : Nat :=
  (s.foldl (fun h c => hashStep h c.toNat) 0).natAbs

/-- One step of the hash as worded by the spec: `hash = hash*31 + charCode`,
wrapped to 32-bit signed overflow semantics at every step. -/
def specHashStep (hash : Int) (code : Nat) : Int :=
  toInt32 (hash * 31 + code)

/-- The polynomial rolling hash exactly as the spec words it. -/
def specHash32 (s : List Char) : Int :=
  s.foldl (fun h c => specHashStep h c.toNat) 0

/-- The seed used by `generateReading`:
`hashCode(text.slice(0, 500) + title)`. -/
def readingSeed (title text : List Char) : Nat :=
  hashCode (text.take 500 ++ title)

/-- An entry of one of the three fixed card decks. -/
structure DeckCard where
  name : String
  meaning : String
deriving DecidableEq

instance : Inhabited DeckCard := ⟨⟨"", ""⟩⟩

/-- `CARD_DECKS.past` from src/server/src/services/readingGenerator.js. -/
def CARD_DECKS_past : List DeckCard :=
  [⟨"The Procrastinator",
    "This document began its journey in the depths of someone's 'to-do later' pile. It has known neglect, yet persevered."⟩,
   ⟨"The Midnight Oil",
    "Born from late-night inspiration and questionable coffee decisions. This document carries the energy of deadlines past."⟩,
   ⟨"The Copy-Paste Sage",
    "Much wisdom here was borrowed from documents that came before. Standing on the shoulders of templates."⟩,
   ⟨"The Revision Maze",
    "This document has seen many versions, each one slightly different, none quite right. Version 17 remembers."⟩,
   ⟨"The Abandoned Draft",
    "Once begun with great enthusiasm, then forgotten for weeks. Its early paragraphs still echo with optimism."⟩,
   ⟨"The Meeting Minutes",
    "This document was birthed in a conference room. It carries the collective indecision of many voices."⟩,
   ⟨"The Inherited Legacy",
    "Someone else started this. The original author has moved on, leaving only cryptic comments behind."⟩,
   ⟨"The Scope Creeper",
    "What began as a simple task grew into something far more complex. Feature creep left its mark."⟩]

/-- `CARD_DECKS.present` from the same source file. -/
def CARD_DECKS_present : List DeckCard :=
  [⟨"The Attention Seeker",
    "Right now, this document desperately wants to be read. It yearns for someone to actually make it to page 2."⟩,
   ⟨"The Hopeful Attachment",
    "Currently sitting in an inbox, waiting to be opened. It believes today could be the day."⟩,
   ⟨"The Polished Facade",
    "Presenting its best self with clean formatting and professional fonts. But we know the tracked changes it hides."⟩,
   ⟨"The Meeting Survivor",
    "This document has been projected onto screens and scrutinized by many. It seeks validation."⟩,
   ⟨"The Urgent Flag",
    "Marked as important! High priority! But is anyone actually reading it? The document wonders."⟩,
   ⟨"The Circling Approval",
    "Currently making rounds through the approval chain. Each signature brings it closer to its destiny."⟩,
   ⟨"The Open Tab",
    "Living in a browser tab among dozens of others. Occasionally glimpsed but never fully absorbed."⟩,
   ⟨"The Desktop Dweller",
    "Saved to the desktop for \"quick access.\" Now buried under 47 other files with similar intentions."⟩]

/-- `CARD_DECKS.future` from the same source file. -/
def CARD_DECKS_future : List DeckCard :=
  [⟨"The Forgotten Archive",
    "Beware! This document's destiny leads to a folder called 'Old Stuff' where it will languish for eternity."⟩,
   ⟨"The Scope Creep",
    "Warning: Additional requirements approach. This document will grow to twice its intended size."⟩,
   ⟨"The Reply All Catastrophe",
    "Danger ahead! This document may be accidentally sent to people who should never see it."⟩,
   ⟨"The Printer Nemesis",
    "A formatting disaster awaits. Margins will shift, fonts will change, and someone will say \"it looked fine on my screen.\""⟩,
   ⟨"The Endless Revision",
    "More feedback is coming. Version numbers will climb. The \"final\" version will spawn many children."⟩,
   ⟨"The Deadline Demon",
    "A hard deadline approaches. Corners will be cut. Sleep will be lost. The document will ship anyway."⟩,
   ⟨"The Silent Archive",
    "After much fanfare, this document will be filed away and never opened again. Such is the cycle."⟩,
   ⟨"The Rebirth",
    "This document will be repurposed. Its content will live on in presentations, emails, and other forms."⟩]

/-- An entry of the fixed aura deck. -/
structure Aura where
  name : String
  description : String
deriving DecidableEq

instance : Inhabited Aura := ⟨⟨"", ""⟩⟩

/-- `AURAS` from src/server/src/services/readingGenerator.js. -/
def AURAS : List Aura :=
  [⟨"Focus Goblin", "Highly concentrated content, dense with purpose"⟩,
   ⟨"Deadline Phantom", "Created under pressure, radiates urgency"⟩,
   ⟨"Meeting Magnet", "Will spawn many discussions and calendar invites"⟩,
   ⟨"Inbox Specter", "Destined to haunt email threads"⟩,
   ⟨"Revision Wraith", "Will undergo many transformations"⟩,
   ⟨"Approval Seeker", "Craves validation from stakeholders"⟩,
   ⟨"Scope Creeper", "Tends to expand beyond original boundaries"⟩,
   ⟨"Format Warrior", "Fights valiantly against inconsistent styling"⟩,
   ⟨"Archive Wanderer", "Seeks a final resting place in the file system"⟩,
   ⟨"Tab Haunter", "Will live in browser tabs indefinitely"⟩]

/-- `CERTIFICATIONS` from src/server/src/services/readingGenerator.js. -/
def CERTIFICATIONS : List String :=
  ["Certified Chaotic Neutral",
   "Professionally Procrastinated",
   "Officially Overthought",
   "Beautifully Bureaucratic",
   "Delightfully Disorganized",
   "Strategically Ambiguous",
   "Carefully Cluttered",
   "Magnificently Meandering",
   "Perfectly Pending",
   "Blissfully Bloated"]

/-- The index computed by `selectSeeded`: `(seed + offset) % array.length`. -/
def selectIndex (len seed offset : Nat) : Nat :=
  (seed + offset) % len

/-- `selectSeeded(array, seed, offset)`: `array[(seed + offset) % array.length]`
(the decks are non-empty, so the access is always in bounds). -/
def selectSeeded [Inhabited α] (array : List α) (seed : Nat) (offset : Nat := 0) : α :=
  array.getD (selectIndex array.length seed offset) default

/-- A card of a Reading: `{position, name, meaning}`. -/
structure CardT where
  position : String
  name : String
  meaning : String
deriving DecidableEq

/-- The Reading returned by the analyze phase. -/
structure ReadingOut where
  title : List Char
  keywords : List (List Char)
  category : String
  aura : String
  certification : String
  cards : List CardT
deriving DecidableEq

/-- `generateReading({title, keywords, category, text})` from
src/server/src/services/readingGenerator.js lines 173-198. -/
def generateReading (title : List Char) (keywords : List (List Char))
    (category : String) (text : List Char) : ReadingOut :=
  let seed := readingSeed title text
  let pastCard := selectSeeded CARD_DECKS_past seed 0
  let presentCard := selectSeeded CARD_DECKS_present seed 1
  let futureCard := selectSeeded CARD_DECKS_future seed 2
  let aura := selectSeeded AURAS seed 3
  let certification := selectSeeded CERTIFICATIONS seed 4
  { title := title
    keywords := keywords
    category := category
    aura := aura.name
    certification := certification
    cards :=
      [⟨"past", pastCard.name, pastCard.meaning⟩,
       ⟨"present", presentCard.name, presentCard.meaning⟩,
       ⟨"future", futureCard.name, futureCard.meaning⟩] }

/-- The analyze phase after text extraction (src/server/src/routes/analyze.js
lines 39-59): extract keywords from the full extracted text, categorise,
then generate the reading. -/
def analyzeReading (title text : List Char) : ReadingOut :=
  let keywords := extractKeywords text
  let category := categorizeDocument keywords
  generateReading title keywords category text

/-- The analysis object submitted to the render phase, after JSON parsing:
fields may be absent (`none`); JS falsiness of `''` is handled at use sites. -/
structure AnalysisJson where
  title : Option String
  aura : Option String
  certification : Option String
  cards : Option (List CardT)
deriving DecidableEq

/-- JS `a || b` for an optional string value: `undefined` and `''` are falsy. -/
def jsOrString (a : Option String) (b : String) : String :=
  match a with
  | none => b
  | some s => if s = "" then b else s

/-- The structural validation performed by the render handlers
(src/server/src/routes/render.js lines 36-42, src/api/render.js lines
323-329): `!analysis.cards || analysis.cards.length !== 3` fails, then
`!analysis.aura` fails; nothing else is inspected. -/
def validateAnalysis (a : AnalysisJson) : Bool :=
  (match a.cards with
   | none => false
   | some cs => decide (cs.length = 3))
  &&
  (match a.aura with
   | none => false
   | some s => decide (s ≠ ""))

/-- The text content drawn for one card block of the cover page
(src/api/render.js lines 117-171): position label, name truncated to 18
characters, meaning wrapped at 22 characters and clipped to 5 lines. -/
structure CardBlock where
  label : String
  name : List Char
  meaningLines : List (List Char)
deriving DecidableEq

/-- Render one card block of the cover page. -/
def renderCardBlock (label : String) (card : CardT) : CardBlock :=
  ⟨label, truncateChars card.name.data 18, (wrapText card.meaning.data 22).take 5⟩

/-- The text content composed onto the cover page by `createCoverPage`
(src/api/render.js lines 53-244). -/
structure CoverData where
  docTitle : List Char
  cardBlocks : List CardBlock
  auraText : List Char
  certText : List Char
deriving DecidableEq

/-- The data drawn by `createCoverPage`: document title with the
`'Untitled Document'` fallback truncated to 50 characters, the three card
blocks, `'AURA: ' + analysis.aura`, and the certification text with its
`'Certified Chaotic Neutral'` fallback (src/api/render.js lines 96, 117-171,
175, 200). -/
def createCoverData (a : AnalysisJson) (c0 c1 c2 : CardT) : CoverData :=
  { docTitle := truncateChars (jsOrString a.title "Untitled Document").data 50
    cardBlocks :=
      [renderCardBlock "PAST" c0, renderCardBlock "PRESENT" c1, renderCardBlock "FUTURE" c2]
    auraText := ("AURA: " ++ (a.aura.getD "undefined")).data
    certText := (jsOrString a.certification "Certified Chaotic Neutral").data }

/-- A PDF page: its dimensions and its content (content of original pages is
abstract). -/
structure Page (α : Type) where
  width : Nat
  height : Nat
  content : α
deriving DecidableEq

/-- Content of a page of the merged document: either the composed cover or a
copy of an original page. -/
inductive PageContent (α : Type) where
  | cover (data : CoverData)
  | original (a : α)
deriving DecidableEq

/-- `createCoverPage(analysis, pageWidth, pageHeight)`: a one-page document
sized to the supplied dimensions; it reads `analysis.cards[0..2]`, so it
needs at least three cards. -/
def createCoverPage (a : AnalysisJson) (w h : Nat) : Option (Page (PageContent α)) :=
  match a.cards with
  | some (c0 :: c1 :: c2 :: _) => some ⟨w, h, .cover (createCoverData a c0 c1 c2)⟩
  | _ => none

/-- `copyPages`: a copied original page keeps its dimensions and content. -/
def liftPage (p : Page α) : Page (PageContent α) :=
  ⟨p.width, p.height, .original p.content⟩

/-- `renderMergedPdf(originalPdfBuffer, analysis)` (src/api/render.js lines
246-276): take the first page's dimensions (throws when the original has no
pages), compose the cover, then output cover page followed by every original
page in index order. -/
def renderMergedPdf (orig : List (Page α)) (a : AnalysisJson) :
    Option (List (Page (PageContent α))) :=
  match orig with
  | [] => none
  | first :: _ =>
    (createCoverPage a first.width first.height).map
      (fun cover => cover :: orig.map liftPage)

/-- Failure modes of the render phase. -/
inductive RenderError where
  | validationError
  | renderFailure
deriving DecidableEq

/-- The render operation: validate the submitted analysis before any
composition work, then compose and merge. -/
def renderOp (orig : List (Page α)) (a : AnalysisJson) :
    Except RenderError (List (Page (PageContent α))) :=
  if validateAnalysis a then
    match renderMergedPdf orig a with
    | some pages => .ok pages
    | none => .error .renderFailure
  else
    .error .validationError

lemma hashStep_eq_specHashStep (h : Int) (c : Nat) : hashStep h c = specHashStep h c := by
  simp only [hashStep, specHashStep, toInt32]
  split_ifs <;> omega

lemma foldl_hashStep_eq (s : List Char) :
    ∀ h : Int,
      s.foldl (fun h c => hashStep h c.toNat) h = s.foldl (fun h c => specHashStep h c.toNat) h := by
  intro h
  simp only [hashStep_eq_specHashStep]

/-- C5: the seed used by the reading generator is the absolute value of the
polynomial rolling hash `hash = hash*31 + charCode` over (first 500
characters of the text) ++ title, wrapped to 32-bit signed semantics at
every step; the shift-based update `((hash << 5) - hash) + char` followed by
`hash & hash` agrees with that specification on all inputs. -/
theorem c5_seed_is_spec_hash :
    (∀ s : List Char, hashCode s = (specHash32 s).natAbs) ∧
    (∀ h : Int, ∀ c : Nat, hashStep h c = specHashStep h c) ∧
    (∀ title text : List Char,
      readingSeed title text = (specHash32 (text.take 500 ++ title)).natAbs) := by
  refine ⟨?_, hashStep_eq_specHashStep, ?_⟩
  · intro s
    unfold hashCode specHash32
    rw [foldl_hashStep_eq]
  · intro title text
    unfold readingSeed hashCode specHash32
    rw [foldl_hashStep_eq]

/-- C6: the five selections use offsets 0,1,2,3,4 into the past/present/
future decks (8 entries each), the aura deck (10) and the certification deck
(10), and the computed indices are always within bounds for every seed. -/
theorem c6_selection_offsets_and_bounds :
    CARD_DECKS_past.length = 8 ∧ CARD_DECKS_present.length = 8 ∧
    CARD_DECKS_future.length = 8 ∧ AURAS.length = 10 ∧ CERTIFICATIONS.length = 10 ∧
    (∀ (title : List Char) (keywords : List (List Char)) (category : String)
       (text : List Char),
      (generateReading title keywords category text).cards =
        [⟨"past", (selectSeeded CARD_DECKS_past (readingSeed title text) 0).name,
          (selectSeeded CARD_DECKS_past (readingSeed title text) 0).meaning⟩,
         ⟨"present", (selectSeeded CARD_DECKS_present (readingSeed title text) 1).name,
          (selectSeeded CARD_DECKS_present (readingSeed title text) 1).meaning⟩,
         ⟨"future", (selectSeeded CARD_DECKS_future (readingSeed title text) 2).name,
          (selectSeeded CARD_DECKS_future (readingSeed title text) 2).meaning⟩] ∧
      (generateReading title keywords category text).aura =
        (selectSeeded AURAS (readingSeed title text) 3).name ∧
      (generateReading title keywords category text).certification =
        selectSeeded CERTIFICATIONS (readingSeed title text) 4) ∧
    (∀ seed : Nat,
      selectIndex CARD_DECKS_past.length seed 0 < 8 ∧
      selectIndex CARD_DECKS_present.length seed 1 < 8 ∧
      selectIndex CARD_DECKS_future.length seed 2 < 8 ∧
      selectIndex AURAS.length seed 3 < 10 ∧
      selectIndex CERTIFICATIONS.length seed 4 < 10) := by
  refine ⟨rfl, rfl, rfl, rfl, rfl, fun _ _ _ _ => ⟨rfl, rfl, rfl⟩, ?_⟩
  intro seed
  have h8 : CARD_DECKS_past.length = 8 := rfl
  have h8b : CARD_DECKS_present.length = 8 := rfl
  have h8c : CARD_DECKS_future.length = 8 := rfl
  have h10 : AURAS.length = 10 := rfl
  have h10b : CERTIFICATIONS.length = 10 := rfl
  rw [h8, h8b, h8c, h10, h10b]
  unfold selectIndex
  exact ⟨Nat.mod_lt _ (by norm_num), Nat.mod_lt _ (by norm_num), Nat.mod_lt _ (by norm_num),
    Nat.mod_lt _ (by norm_num), Nat.mod_lt _ (by norm_num)⟩

lemma splitOnPred_ne_nil (p : Char → Bool) : ∀ l : List Char, splitOnPred p l ≠ [] := by
  intro l
  induction l with
  | nil => simp [splitOnPred]
  | cons c rest ih =>
    simp only [splitOnPred]
    by_cases hc : p c
    · simp [hc]
    · simp only [hc, if_neg, Bool.false_eq_true, ite_false]
      cases h : splitOnPred p rest with
      | nil => exact absurd h ih
      | cons w ws => simp [List.modifyHead]

lemma splitOnPred_cons_of_mem (p : Char → Bool) (l : List Char) :
    ∃ w ws, splitOnPred p l = w :: ws := by
  cases h : splitOnPred p l with
  | nil => exact absurd h (splitOnPred_ne_nil p l)
  | cons w ws => exact ⟨w, ws, rfl⟩

lemma splitOnPred_append_sep (p : Char → Bool) (c : Char) (hc : p c = true)
    (a b : List Char) :
    splitOnPred p (a ++ c :: b) = splitOnPred p a ++ splitOnPred p b := by
  induction a with
  | nil => simp [splitOnPred, hc]
  | cons d a ih =>
    by_cases hd : p d
    · simp [splitOnPred, hd, ih]
    · obtain ⟨w, ws, hw⟩ := splitOnPred_cons_of_mem p a
      simp [splitOnPred, hd, ih, hw, List.modifyHead]

lemma splitOnPred_no_sep (p : Char → Bool) (w : List Char)
    (h : ∀ c ∈ w, p c = false) : splitOnPred p w = [w] := by
  induction w with
  | nil => rfl
  | cons c w ih =>
    have hc : p c = false := h c (List.mem_cons_self c w)
    have hrest := ih (fun d hd => h d (List.mem_cons_of_mem c hd))
    simp [splitOnPred, hc, hrest, List.modifyHead]

lemma mem_splitOnPred_sep_free (p : Char → Bool) :
    ∀ (l : List Char), ∀ w ∈ splitOnPred p l, ∀ c ∈ w, p c = false := by
  intro l
  induction l with
  | nil =>
    intro w hw c hc
    simp [splitOnPred] at hw
    subst hw
    simp at hc
  | cons d l ih =>
    intro w hw c hc
    by_cases hd : p d
    · simp only [splitOnPred, hd, ite_true, List.mem_cons] at hw
      rcases hw with rfl | hw
      · simp at hc
      · exact ih w hw c hc
    · obtain ⟨v, vs, hv⟩ := splitOnPred_cons_of_mem p l
      simp only [splitOnPred, hd, Bool.false_eq_true, ite_false, hv,
        List.modifyHead, List.mem_cons] at hw
      rcases hw with rfl | hw
      · rcases List.mem_cons.1 hc with rfl | hc'
        · simpa using hd
        · exact ih v (by simp [hv]) c hc'
      · exact ih w (by simp [hv, hw]) c hc

lemma wrapGo_mem_ok (maxChars : Nat) (S : List (List Char)) :
    ∀ (ws lines : List (List Char)) (cur : List Char),
      (∀ w ∈ ws, w ∈ S) →
      (∀ l ∈ lines, l.length ≤ maxChars ∨ (maxChars < l.length ∧ l ∈ S)) →
      (cur.length ≤ maxChars ∨ (maxChars < cur.length ∧ cur ∈ S)) →
      ∀ l ∈ wrapGo maxChars ws lines cur,
        l.length ≤ maxChars ∨ (maxChars < l.length ∧ l ∈ S) := by
  intro ws
  induction ws with
  | nil =>
    intro lines cur hws hlines hcur l hl
    simp only [wrapGo] at hl
    rcases List.mem_append.1 hl with h | h
    · exact hlines l h
    · by_cases hc : cur.isEmpty
      · simp [hc] at h
      · simp only [hc, Bool.false_eq_true, ite_false, List.mem_singleton] at h
        subst h
        exact hcur
  | cons w ws ih =>
    intro lines cur hws hlines hcur l hl
    simp only [wrapGo] at hl
    by_cases hcond : cur.length + w.length + 1 ≤ maxChars
    · rw [if_pos hcond] at hl
      refine ih lines _ (fun v hv => hws v (List.mem_cons_of_mem w hv)) hlines ?_ l hl
      left
      by_cases hc : cur.isEmpty
      · have : cur = [] := List.isEmpty_iff.1 hc
        subst this
        simp only [List.isEmpty_nil, ite_true, List.nil_append, List.length_nil] at hcond ⊢
        omega
      · simp only [hc, Bool.false_eq_true, ite_false, List.length_append, List.length_cons,
          List.length_nil] at hcond ⊢
        omega
    · rw [if_neg hcond] at hl
      refine ih _ w (fun v hv => hws v (List.mem_cons_of_mem w hv)) ?_ ?_ l hl
      · intro v hv
        rcases List.mem_append.1 hv with h | h
        · exact hlines v h
        · by_cases hc : cur.isEmpty
          · simp [hc] at h
          · simp only [hc, Bool.false_eq_true, ite_false, List.mem_singleton] at h
            subst h
            exact hcur
      · by_cases hw : w.length ≤ maxChars
        · exact Or.inl hw
        · exact Or.inr ⟨by omega, hws w (List.mem_cons_self w ws)⟩

/-- C4: the wrap loop appends a word to the current line exactly when
`len(currentLine) + len(word) + 1 ≤ maxChars` and otherwise flushes the line
and starts a new one with that word; consequently, every emitted line fits in
`maxChars` except a line that is a single input word longer than `maxChars`,
which is passed through unbroken. -/
theorem c4_wrap_greedy_and_bounded :
    (∀ (maxChars : Nat) (word : List Char) (words lines : List (List Char))
       (currentLine : List Char),
      wrapGo maxChars (word :: words) lines currentLine =
        if currentLine.length + word.length + 1 ≤ maxChars then
          wrapGo maxChars words lines
            (currentLine ++ (if currentLine.isEmpty then [] else [' ']) ++ word)
        else
          wrapGo maxChars words
            (lines ++ (if currentLine.isEmpty then [] else [currentLine])) word) ∧
    (∀ (s : List Char) (maxChars : Nat) (line : List Char),
      line ∈ wrapText s maxChars →
      line.length ≤ maxChars ∨ (maxChars < line.length ∧ line ∈ splitSpace s)) := by
  refine ⟨fun _ _ _ _ _ => rfl, ?_⟩
  intro s maxChars line hline
  exact wrapGo_mem_ok maxChars (splitSpace s) (splitSpace s) [] []
    (fun w hw => hw) (by simp) (Or.inl (by simp)) line hline

/-- Witness for C4 at a concrete input: the line `"hello"` is emitted by
`wrapText "hello world" 5` and satisfies the bound. -/
theorem c4_wrap_greedy_and_bounded_witness :
    ("hello".data ∈ wrapText "hello world".data 5) ∧
    ("hello".data.length ≤ 5 ∨
      (5 < "hello".data.length ∧ "hello".data ∈ splitSpace "hello world".data)) :=
  ⟨by decide, c4_wrap_greedy_and_bounded.2 "hello world".data 5 "hello".data (by decide)⟩

lemma wrapGo_flatMap (m : Nat) :
    ∀ (ws lines : List (List Char)) (cur : List Char),
      (∀ w ∈ ws, w ≠ [] ∧ ∀ c ∈ w, c ≠ ' ') →
      (wrapGo m ws lines cur).flatMap splitSpace =
        lines.flatMap splitSpace ++ (if cur.isEmpty then [] else splitSpace cur) ++ ws := by
  intro ws
  induction ws with
  | nil =>
    intro lines cur hws
    by_cases hc : cur.isEmpty
    · simp [wrapGo, hc]
    · simp [wrapGo, hc]
  | cons w ws ih =>
    intro lines cur hws
    obtain ⟨hwne, hwsp⟩ := hws w (List.mem_cons_self w ws)
    have hws' : ∀ v ∈ ws, v ≠ [] ∧ ∀ c ∈ v, c ≠ ' ' :=
      fun v hv => hws v (List.mem_cons_of_mem w hv)
    have hsplitw : splitSpace w = [w] :=
      splitOnPred_no_sep _ w (fun c hc => by simp [hwsp c hc])
    have hwem : w.isEmpty = false := by
      cases w with
      | nil => exact absurd rfl hwne
      | cons a l => rfl
    simp only [wrapGo]
    by_cases hcond : cur.length + w.length + 1 ≤ m
    · rw [if_pos hcond, ih _ _ hws']
      by_cases hc : cur.isEmpty
      · have hcur : cur = [] := List.isEmpty_iff.1 hc
        subst hcur
        simp [hsplitw, hwem]
      · have hcur : cur ≠ [] := fun h => by simp [h] at hc
        have hjoin : cur ++ (if cur.isEmpty then [] else [' ']) ++ w = cur ++ ' ' :: w := by
          simp [hc]
        rw [hjoin]
        have hsplit : splitSpace (cur ++ ' ' :: w) = splitSpace cur ++ [w] := by
          unfold splitSpace
          rw [splitOnPred_append_sep _ ' ' (by simp) cur w]
          rw [show splitOnPred (fun c => decide (c = ' ')) w = [w] from hsplitw]
        have hne : (cur ++ ' ' :: w).isEmpty = false := by
          cases cur with
          | nil => exact absurd rfl hcur
          | cons a l => rfl
        rw [hne, hsplit]
        simp [hc]
    · rw [if_neg hcond, ih _ _ hws']
      by_cases hc : cur.isEmpty
      · simp [hc, hwem, hsplitw]
      · simp [hc, hwem, hsplitw]

/-- C9: on an input whose single-space-separated words are all non-empty,
`wrapText` loses, duplicates and reorders no words: splitting the emitted
lines back into words and concatenating gives exactly the input's word
sequence. -/
theorem c9_wrap_preserves_words (s : List Char) (maxChars : Nat)
    (h : ∀ w ∈ splitSpace s, w ≠ []) :
    (wrapText s maxChars).flatMap splitSpace = splitSpace s := by
  unfold wrapText
  rw [wrapGo_flatMap maxChars (splitSpace s) [] []]
  · simp
  · intro w hw
    refine ⟨h w hw, fun c hc => ?_⟩
    have := mem_splitOnPred_sep_free (fun c => decide (c = ' ')) s w hw c hc
    simpa using this

/-- Witness for C9 at a concrete input. -/
theorem c9_wrap_preserves_words_witness :
    (∀ w ∈ splitSpace "hello brave new world".data, w ≠ []) ∧
    (wrapText "hello brave new world".data 11).flatMap splitSpace =
      splitSpace "hello brave new world".data :=
  ⟨by decide, c9_wrap_preserves_words "hello brave new world".data 11 (by decide)⟩

lemma insertByCount_perm (x : List Char × Nat) :
    ∀ l : List (List Char × Nat), List.Perm (insertByCount x l) (x :: l) := by
  intro l
  induction l with
  | nil => exact List.Perm.refl _
  | cons y ys ih =>
    simp only [insertByCount]
    by_cases hc : y.2 ≤ x.2
    · rw [if_pos hc]
    · rw [if_neg hc]
      exact (ih.cons y).trans (List.Perm.swap x y ys)

lemma sortByCountDesc_perm :
    ∀ l : List (List Char × Nat), List.Perm (sortByCountDesc l) l := by
  intro l
  induction l with
  | nil => exact List.Perm.refl _
  | cons x xs ih =>
    exact (insertByCount_perm x (sortByCountDesc xs)).trans (ih.cons x)

lemma mem_insertByCount (x y : List Char × Nat) (l : List (List Char × Nat)) :
    y ∈ insertByCount x l ↔ y = x ∨ y ∈ l := by
  constructor
  · intro h
    have := (insertByCount_perm x l).mem_iff.1 h
    simpa using this
  · intro h
    apply (insertByCount_perm x l).mem_iff.2
    simpa using h

lemma pairwise_insertByCount (x : List Char × Nat) (l : List (List Char × Nat))
    (h : l.Pairwise (fun a b => b.2 ≤ a.2)) :
    (insertByCount x l).Pairwise (fun a b => b.2 ≤ a.2) := by
  induction l with
  | nil => simp [insertByCount]
  | cons y ys ih =>
    rcases List.pairwise_cons.1 h with ⟨hy, hys⟩
    simp only [insertByCount]
    by_cases hc : y.2 ≤ x.2
    · rw [if_pos hc]
      refine List.pairwise_cons.2 ⟨?_, h⟩
      intro z hz
      rcases List.mem_cons.1 hz with rfl | hz'
      · exact hc
      · exact le_trans (hy z hz') hc
    · rw [if_neg hc]
      refine List.pairwise_cons.2 ⟨?_, ih hys⟩
      intro z hz
      rcases (mem_insertByCount x z ys).1 hz with rfl | hz'
      · omega
      · exact hy z hz'

lemma sortByCountDesc_pairwise :
    ∀ l : List (List Char × Nat), (sortByCountDesc l).Pairwise (fun a b => b.2 ≤ a.2) := by
  intro l
  induction l with
  | nil => simp [sortByCountDesc]
  | cons x xs ih => exact pairwise_insertByCount x (sortByCountDesc xs) ih

lemma filter_insertByCount (x : List Char × Nat) (l : List (List Char × Nat)) (n : Nat) :
    (insertByCount x l).filter (fun e => decide (e.2 = n)) =
      (if x.2 = n then [x] else []) ++ l.filter (fun e => decide (e.2 = n)) := by
  induction l with
  | nil =>
    simp only [insertByCount, List.filter]
    by_cases hx : x.2 = n
    · simp [hx]
    · simp [hx]
  | cons y ys ih =>
    simp only [insertByCount]
    by_cases hc : y.2 ≤ x.2
    · rw [if_pos hc]
      by_cases hx : x.2 = n <;> simp [List.filter_cons, hx]
    · rw [if_neg hc]
      rw [List.filter_cons, List.filter_cons, ih]
      by_cases hy : y.2 = n
      · have hx : ¬ x.2 = n := by omega
        simp [hy, hx]
      · by_cases hx : x.2 = n <;> simp [hy, hx]

lemma filter_sortByCountDesc (l : List (List Char × Nat)) (n : Nat) :
    (sortByCountDesc l).filter (fun e => decide (e.2 = n)) =
      l.filter (fun e => decide (e.2 = n)) := by
  induction l with
  | nil => rfl
  | cons x xs ih =>
    simp only [sortByCountDesc]
    rw [filter_insertByCount, ih, List.filter_cons]
    by_cases hx : x.2 = n <;> simp [hx]

/-- C7 counterexample: on input "zzzz 2024" both tokens occur once and
"zzzz" is seen first, yet `Object.entries` lists the array-index-like key
"2024" first, so the stable sort returns ["2024", "zzzz"] instead of the
first-seen order ["zzzz", "2024"]. -/
theorem c7_counterexample :
    countTokens (tokenize "zzzz 2024".data) =
      [("zzzz".data, 1), ("2024".data, 1)] ∧
    extractKeywords "zzzz 2024".data = [("2024".data : List Char), "zzzz".data] ∧
    extractKeywords "zzzz 2024".data ≠ [("zzzz".data : List Char), "2024".data] :=
  ⟨by decide, by decide, by decide⟩

/-- C7 amended: keyword extraction stably sorts the frequency entries in
`Object.entries` enumeration order — array-index-like tokens first in
ascending numeric order, then the remaining tokens in first-seen order — by
descending count and keeps the top `maxKeywords`; therefore ties are broken
by first-seen order whenever no token is an array-index-like digit string,
and on `"apple apple banana banana banana cherry"` the result is exactly
`["banana", "apple", "cherry"]`. -/
theorem c7_keyword_ranking_amended :
    (extractKeywords "apple apple banana banana banana cherry".data =
      (["banana", "apple", "cherry"] : List String).map String.data) ∧
    (∀ (text : List Char) (maxKeywords : Nat),
      extractKeywords text maxKeywords =
        ((sortByCountDesc (objectEntries (countTokens (tokenize text)))).take
            maxKeywords).map Prod.fst) ∧
    (∀ (text : List Char) (maxKeywords : Nat),
      (extractKeywords text maxKeywords).length ≤ maxKeywords) ∧
    (∀ text : List Char,
      (∀ e ∈ countTokens (tokenize text), isArrayIndexKey e.1 = false) →
      keywordEntries text = countTokens (tokenize text)) ∧
    (∀ l : List (List Char × Nat), List.Perm (sortByCountDesc l) l) ∧
    (∀ l : List (List Char × Nat),
      (sortByCountDesc l).Pairwise (fun a b => b.2 ≤ a.2)) ∧
    (∀ (l : List (List Char × Nat)) (n : Nat),
      (sortByCountDesc l).filter (fun e => decide (e.2 = n)) =
        l.filter (fun e => decide (e.2 = n))) := by
  refine ⟨by decide, fun _ _ => rfl, ?_, ?_, sortByCountDesc_perm, sortByCountDesc_pairwise,
    filter_sortByCountDesc⟩
  · intro text maxKeywords
    unfold extractKeywords
    rw [List.length_map]
    exact (List.length_take_le _ _)
  · intro text h
    unfold keywordEntries objectEntries
    have h1 : (countTokens (tokenize text)).filter (fun e => isArrayIndexKey e.1) = [] := by
      rw [List.filter_eq_nil_iff]
      intro e he
      simp [h e he]
    have h2 : (countTokens (tokenize text)).filter (fun e => !(isArrayIndexKey e.1)) =
        countTokens (tokenize text) := by
      rw [List.filter_eq_self]
      intro e he
      simp [h e he]
    rw [h1, h2]
    rfl

/-- Witness for the amended C7's no-array-index-token clause at the concrete
example input. -/
theorem c7_keyword_ranking_amended_witness :
    (∀ e ∈ countTokens (tokenize "apple apple banana banana banana cherry".data),
      isArrayIndexKey e.1 = false) ∧
    keywordEntries "apple apple banana banana banana cherry".data =
      countTokens (tokenize "apple apple banana banana banana cherry".data) :=
  ⟨by decide,
   c7_keyword_ranking_amended.2.2.2.1 "apple apple banana banana banana cherry".data
     (by decide)⟩

/-- Maximum score in a list of (name, score) pairs. -/
def maxScoreOf (scores : List (String × Nat)) : Nat :=
  scores.foldr (fun c m => max c.2 m) 0

/-- Modelled from the spec's words: score each category by the count of its
words present among the (lowercased) keywords; the highest nonzero score
wins, ties broken by table order; all-zero scores default to `"general"`. -/
def specCategorize (keywords : List (List Char)) : String :=
  let keywordSet := keywords.map (List.map Char.toLower)
  let scores := CATEGORY_TABLE.map (fun cat => (cat.1, categoryScore keywordSet cat.2))
  if maxScoreOf scores = 0 then "general"
  else ((scores.find? (fun c => decide (c.2 = maxScoreOf scores))).map Prod.fst).getD "general"

lemma maxScoreOf_cons (c : String × Nat) (l : List (String × Nat)) :
    maxScoreOf (c :: l) = max c.2 (maxScoreOf l) := rfl

lemma find?_maxScoreOf_attained (l : List (String × Nat)) (h : maxScoreOf l ≠ 0) :
    ∃ y, l.find? (fun c => decide (c.2 = maxScoreOf l)) = some y := by
  induction l with
  | nil => exact absurd rfl h
  | cons c cs ih =>
    rw [maxScoreOf_cons] at h ⊢
    by_cases hc : c.2 = max c.2 (maxScoreOf cs)
    · refine ⟨c, ?_⟩
      rw [List.find?_cons]
      simp [← hc]
    · have hM : max c.2 (maxScoreOf cs) = maxScoreOf cs := by omega
      rw [hM] at h ⊢
      obtain ⟨y, hy⟩ := ih h
      refine ⟨y, ?_⟩
      rw [List.find?_cons]
      have : (decide (c.2 = maxScoreOf cs)) = false := by
        simp only [decide_eq_false_iff_not]
        omega
      simp [this, hy]

lemma foldl_best_eq (l : List (String × Nat)) :
    ∀ b : String × Nat,
      l.foldl (fun best c => if best.2 < c.2 then c else best) b =
        if maxScoreOf l ≤ b.2 then b
        else (l.find? (fun c => decide (c.2 = maxScoreOf l))).getD b := by
  induction l with
  | nil => intro b; simp [maxScoreOf]
  | cons c cs ih =>
    intro b
    rw [List.foldl_cons, maxScoreOf_cons]
    by_cases hcb : b.2 < c.2
    · rw [if_pos hcb, ih c]
      by_cases h1 : maxScoreOf cs ≤ c.2
      · rw [if_pos h1, if_neg (by omega)]
        rw [List.find?_cons]
        have hpc : (decide (c.2 = max c.2 (maxScoreOf cs))) = true := by
          simp only [decide_eq_true_eq]
          omega
        simp [hpc, h1]
      · rw [if_neg h1, if_neg (by omega)]
        have hM : max c.2 (maxScoreOf cs) = maxScoreOf cs := by omega
        rw [hM, List.find?_cons]
        have hpc : (decide (c.2 = maxScoreOf cs)) = false := by
          simp only [decide_eq_false_iff_not]
          omega
        rw [hpc]
        obtain ⟨y, hy⟩ := find?_maxScoreOf_attained cs (by omega)
        simp [hy]
    · rw [if_neg hcb, ih b]
      by_cases h1 : maxScoreOf cs ≤ b.2
      · rw [if_pos h1, if_pos (by omega)]
      · rw [if_neg h1, if_neg (by omega)]
        have hM : max c.2 (maxScoreOf cs) = maxScoreOf cs := by omega
        rw [hM, List.find?_cons]
        have hpc : (decide (c.2 = maxScoreOf cs)) = false := by
          simp only [decide_eq_false_iff_not]
          omega
        rw [hpc]

lemma maxScoreOf_eq_zero (l : List (String × Nat)) (h : ∀ x ∈ l, x.2 = 0) :
    maxScoreOf l = 0 := by
  induction l with
  | nil => rfl
  | cons c cs ih =>
    rw [maxScoreOf_cons, ih (fun x hx => h x (List.mem_cons_of_mem c hx)),
      h c (List.mem_cons_self c cs)]
    simp

/-- C8: categorisation scores the six fixed categories by the count of their
words among the keywords, returns the highest-scoring category with nonzero
score (table order breaking ties), and returns "general" whenever every
category scores zero. -/
theorem c8_categorize_matches_spec :
    (∀ keywords : List (List Char), categorizeDocument keywords = specCategorize keywords) ∧
    (∀ keywords : List (List Char),
      (∀ cat ∈ CATEGORY_TABLE,
        categoryScore (keywords.map (List.map Char.toLower)) cat.2 = 0) →
      categorizeDocument keywords = "general") := by
  have hmain : ∀ keywords : List (List Char),
      categorizeDocument keywords = specCategorize keywords := by
    intro kws
    simp only [categorizeDocument, specCategorize]
    rw [show
        CATEGORY_TABLE.foldl
          (fun best cat =>
            if best.2 < categoryScore (kws.map (List.map Char.toLower)) cat.2 then
              (cat.1, categoryScore (kws.map (List.map Char.toLower)) cat.2)
            else best)
          ("general", 0) =
        (CATEGORY_TABLE.map
            (fun cat => (cat.1, categoryScore (kws.map (List.map Char.toLower)) cat.2))).foldl
          (fun best c => if best.2 < c.2 then c else best) ("general", 0) from rfl]
    rw [foldl_best_eq]
    set scores := CATEGORY_TABLE.map
      (fun cat => (cat.1, categoryScore (kws.map (List.map Char.toLower)) cat.2)) with hs
    by_cases h0 : maxScoreOf scores = 0
    · simp [h0]
    · have hh : ¬ maxScoreOf scores ≤ 0 := by omega
      rw [if_neg hh, if_neg h0]
      obtain ⟨y, hy⟩ := find?_maxScoreOf_attained scores h0
      simp [hy]
  refine ⟨hmain, ?_⟩
  intro kws hz
  rw [hmain kws]
  simp only [specCategorize]
  have h0 : maxScoreOf
      (CATEGORY_TABLE.map
        (fun cat => (cat.1, categoryScore (kws.map (List.map Char.toLower)) cat.2))) = 0 := by
    apply maxScoreOf_eq_zero
    intro x hx
    obtain ⟨cat, hcat, rfl⟩ := List.mem_map.1 hx
    exact hz cat hcat
  simp [h0]

/-- Witness for C8's all-zero clause at a concrete input: a keyword disjoint
from every category word list resolves to "general". -/
theorem c8_categorize_matches_spec_witness :
    categorizeDocument ["zzzz".data] = "general" :=
  c8_categorize_matches_spec.2 ["zzzz".data] (by decide)

/-- A 500-character prefix shared by the two C1 counterexample texts. -/
def c1Base : List Char := List.replicate 500 'a'

/-- First counterexample text: differs from the second only after char 500. -/
def c1TextA : List Char := c1Base ++ " code code code code".data

/-- Second counterexample text: differs from the first only after char 500. -/
def c1TextB : List Char := c1Base ++ " data data data data".data

/-- C1 counterexample: two analyze inputs with the same title and the same
first 500 characters of extracted text, differing only later, produce
different Readings (their keyword lists differ, because keywords are
extracted from the full text). -/
theorem c1_counterexample :
    List.take 500 c1TextA = List.take 500 c1TextB ∧
    analyzeReading "Notes".data c1TextA ≠ analyzeReading "Notes".data c1TextB := by
  constructor
  · decide
  · intro h
    have hk := congrArg ReadingOut.keywords h
    revert hk
    decide

/-- C1 amended: the title, cards, aura and certification of the Reading
depend only on (title, first 500 characters of text); only the keywords and
category may differ when later text changes. -/
theorem c1_amended_seeded_fields (t1 x1 t2 x2 : List Char) (ht : t1 = t2)
    (h500 : x1.take 500 = x2.take 500) :
    (analyzeReading t1 x1).title = (analyzeReading t2 x2).title ∧
    (analyzeReading t1 x1).cards = (analyzeReading t2 x2).cards ∧
    (analyzeReading t1 x1).aura = (analyzeReading t2 x2).aura ∧
    (analyzeReading t1 x1).certification = (analyzeReading t2 x2).certification := by
  subst ht
  have hseed : readingSeed t1 x1 = readingSeed t1 x2 := by
    unfold readingSeed
    rw [h500]
  unfold analyzeReading generateReading
  rw [hseed]
  exact ⟨rfl, rfl, rfl, rfl⟩

/-- Witness for the amended C1 at the concrete counterexample pair. -/
theorem c1_amended_seeded_fields_witness :
    (List.take 500 c1TextA = List.take 500 c1TextB) ∧
    ((analyzeReading "Notes".data c1TextA).title =
        (analyzeReading "Notes".data c1TextB).title ∧
      (analyzeReading "Notes".data c1TextA).cards =
        (analyzeReading "Notes".data c1TextB).cards ∧
      (analyzeReading "Notes".data c1TextA).aura =
        (analyzeReading "Notes".data c1TextB).aura ∧
      (analyzeReading "Notes".data c1TextA).certification =
        (analyzeReading "Notes".data c1TextB).certification) :=
  ⟨by decide,
   c1_amended_seeded_fields "Notes".data c1TextA "Notes".data c1TextB rfl (by decide)⟩

/-- An analysis whose three cards all carry position "past" and whose
certification is missing. -/
def c2Analysis : AnalysisJson :=
  { title := none
    aura := some "Focus Goblin"
    certification := none
    cards := some [⟨"past", "The Procrastinator", "m"⟩,
                   ⟨"past", "The Midnight Oil", "m"⟩,
                   ⟨"past", "The Copy-Paste Sage", "m"⟩] }

/-- A one-page original document with abstract content. -/
def c2Orig : List (Page Nat) := [⟨612, 792, 0⟩]

/-- C2 counterexample: a Reading whose cards do not contain each position
exactly once and whose certification is missing passes render validation and
renders successfully, instead of failing with ValidationError. -/
theorem c2_counterexample :
    (∃ pages, renderOp c2Orig c2Analysis = Except.ok pages) ∧
    renderOp c2Orig c2Analysis ≠ Except.error RenderError.validationError := by
  have hok : ∃ pages, renderOp c2Orig c2Analysis = Except.ok pages := ⟨_, rfl⟩
  refine ⟨hok, ?_⟩
  obtain ⟨pages, hp⟩ := hok
  rw [hp]
  intro h
  exact Except.noConfusion h

/-- C2 amended: render validation rejects exactly a missing cards array, a
cards array whose length is not 3, and a missing or empty aura string, with
ValidationError raised before any rendering; card positions and the
certification field are not inspected. -/
theorem c2_amended_validation (α : Type) (orig : List (Page α)) (a : AnalysisJson)
    (h : (match a.cards with
          | none => True
          | some cs => cs.length ≠ 3) ∨ a.aura = none ∨ a.aura = some "") :
    renderOp orig a = Except.error RenderError.validationError := by
  have hv : validateAnalysis a = false := by
    unfold validateAnalysis
    rcases h with h | h | h
    · cases hc : a.cards with
      | none => simp
      | some cs =>
        rw [hc] at h
        simp [h]
    · rw [h]
      simp
    · rw [h]
      simp
  unfold renderOp
  rw [hv]
  simp

/-- Witness for the amended C2: a two-card analysis is rejected. -/
theorem c2_amended_validation_witness :
    renderOp c2Orig
        ⟨none, some "Focus Goblin", none,
          some [⟨"past", "A", "m"⟩, ⟨"present", "B", "m"⟩]⟩ =
      Except.error RenderError.validationError :=
  c2_amended_validation Nat c2Orig _ (Or.inl (by decide))

/-- C3: for a non-empty original and a Reading that passes validation, the
render operation succeeds and returns exactly 1 + N pages: the composed
cover at index 0, followed by every original page, copied in original index
order with dimensions and content unaltered. -/
theorem c3_merge_invariant (α : Type) (orig : List (Page α)) (a : AnalysisJson)
    (h1 : orig ≠ []) (h2 : validateAnalysis a = true) :
    ∃ (cover : Page (PageContent α)) (merged : List (Page (PageContent α))),
      renderOp orig a = Except.ok merged ∧
      merged = cover :: orig.map liftPage ∧
      merged.length = orig.length + 1 ∧
      merged.head? = some cover ∧
      (∃ d, cover.content = PageContent.cover d) ∧
      merged.drop 1 = orig.map liftPage := by
  obtain ⟨first, rest, rfl⟩ : ∃ f r, orig = f :: r := by
    cases orig with
    | nil => exact absurd rfl h1
    | cons f r => exact ⟨f, r, rfl⟩
  have hcards : ∃ c0 c1 c2, a.cards = some [c0, c1, c2] := by
    unfold validateAnalysis at h2
    cases hc : a.cards with
    | none =>
      rw [hc] at h2
      simp at h2
    | some cs =>
      rw [hc] at h2
      simp only [Bool.and_eq_true, decide_eq_true_eq] at h2
      obtain ⟨h3, _⟩ := h2
      match cs, h3 with
      | [c0, c1, c2], _ => exact ⟨c0, c1, c2, rfl⟩
  obtain ⟨c0, c1, c2, hcs⟩ := hcards
  refine ⟨⟨first.width, first.height, .cover (createCoverData a c0 c1 c2)⟩,
    ⟨first.width, first.height, .cover (createCoverData a c0 c1 c2)⟩ ::
      (first :: rest).map liftPage,
    ?_, rfl, by simp, rfl, ⟨_, rfl⟩, by simp⟩
  simp [renderOp, h2, renderMergedPdf, createCoverPage, hcs]

/-- Witness for C3 at a concrete one-page original and valid analysis. -/
theorem c3_merge_invariant_witness :
    (([⟨612, 792, 0⟩] : List (Page Nat)) ≠ []) ∧
    (validateAnalysis
        ⟨some "Doc", some "Focus Goblin", some "Certified Chaotic Neutral",
          some [⟨"past", "A", "m"⟩, ⟨"present", "B", "m"⟩, ⟨"future", "C", "m"⟩]⟩ = true) ∧
    (∃ (cover : Page (PageContent Nat)) (merged : List (Page (PageContent Nat))),
      renderOp ([⟨612, 792, 0⟩] : List (Page Nat))
          ⟨some "Doc", some "Focus Goblin", some "Certified Chaotic Neutral",
            some [⟨"past", "A", "m"⟩, ⟨"present", "B", "m"⟩, ⟨"future", "C", "m"⟩]⟩ =
        Except.ok merged ∧
      merged = cover :: ([⟨612, 792, 0⟩] : List (Page Nat)).map liftPage ∧
      merged.length = ([⟨612, 792, 0⟩] : List (Page Nat)).length + 1 ∧
      merged.head? = some cover ∧
      (∃ d, cover.content = PageContent.cover d) ∧
      merged.drop 1 = ([⟨612, 792, 0⟩] : List (Page Nat)).map liftPage) :=
  ⟨by decide, by decide,
   c3_merge_invariant Nat [⟨612, 792, 0⟩]
     ⟨some "Doc", some "Focus Goblin", some "Certified Chaotic Neutral",
       some [⟨"past", "A", "m"⟩, ⟨"present", "B", "m"⟩, ⟨"future", "C", "m"⟩]⟩
     (by decide) (by decide)⟩

/-- C10: an analysis whose certification is missing or empty but which has 3
cards and a non-empty aura passes validation, renders successfully, and the
composed cover carries the fallback stamp text "Certified Chaotic Neutral". -/
theorem c10_certification_fallback (α : Type) (p : Page α) (rest : List (Page α))
    (a : AnalysisJson) (c0 c1 c2 : CardT) (s : String)
    (hcards : a.cards = some [c0, c1, c2]) (haura : a.aura = some s) (hs : s ≠ "")
    (hcert : a.certification = none ∨ a.certification = some "") :
    ∃ cover : Page (PageContent α),
      renderOp (p :: rest) a = Except.ok (cover :: (p :: rest).map liftPage) ∧
      ∃ d, cover.content = PageContent.cover d ∧
        d.certText = "Certified Chaotic Neutral".data := by
  have hv : validateAnalysis a = true := by
    unfold validateAnalysis
    rw [hcards, haura]
    simp [hs]
  refine ⟨⟨p.width, p.height, .cover (createCoverData a c0 c1 c2)⟩, ?_,
    createCoverData a c0 c1 c2, rfl, ?_⟩
  · simp [renderOp, hv, renderMergedPdf, createCoverPage, hcards]
  · rcases hcert with h | h <;> simp [createCoverData, jsOrString, h]

/-- Witness for C10 at a concrete analysis with a missing certification. -/
theorem c10_certification_fallback_witness :
    ((⟨none, some "Focus Goblin", none,
        some [⟨"past", "A", "m"⟩, ⟨"present", "B", "m"⟩, ⟨"future", "C", "m"⟩]⟩ :
          AnalysisJson).cards =
        some [⟨"past", "A", "m"⟩, ⟨"present", "B", "m"⟩, ⟨"future", "C", "m"⟩]) ∧
    (∃ cover : Page (PageContent Nat),
      renderOp ((⟨612, 792, 0⟩ : Page Nat) :: ([] : List (Page Nat)))
          ⟨none, some "Focus Goblin", none,
            some [⟨"past", "A", "m"⟩, ⟨"present", "B", "m"⟩, ⟨"future", "C", "m"⟩]⟩ =
        Except.ok (cover :: ((⟨612, 792, 0⟩ : Page Nat) :: ([] : List (Page Nat))).map liftPage) ∧
      ∃ d, cover.content = PageContent.cover d ∧
        d.certText = "Certified Chaotic Neutral".data) :=
  ⟨rfl,
   c10_certification_fallback Nat ⟨612, 792, 0⟩ []
     ⟨none, some "Focus Goblin", none,
       some [⟨"past", "A", "m"⟩, ⟨"present", "B", "m"⟩, ⟨"future", "C", "m"⟩]⟩
     ⟨"past", "A", "m"⟩ ⟨"present", "B", "m"⟩ ⟨"future", "C", "m"⟩ "Focus Goblin"
     rfl rfl (by decide) (Or.inl rfl)⟩
